import Mathlib

/-!
Verification of the deck-share-code plugin.

The development shallowly embeds the plugin's source: `decode_share_ids`
(Base64 normalization, CPython's lenient `a2b_base64`, de-obfuscation and
12-bit unpacking), the catalog-map construction and its process-wide cache
(`get_card_id_map`), and the slot arrangement performed by
`generate_deck_image` before image fetching.
-/

namespace GitcgDeck

/-! ## Base64 decoding (CPython `base64.b64decode`, lenient mode) -/

/-- The standard Base64 alphabet table, as CPython's `table_a2b_base64`:
`A`-`Z` ↦ 0-25, `a`-`z` ↦ 26-51, `0`-`9` ↦ 52-61, `+` ↦ 62, `/` ↦ 63,
everything else invalid. -/
def b64Table (c : Char) : Option Nat :=
  if 65 ≤ c.toNat ∧ c.toNat ≤ 90 then some (c.toNat - 65)
  else if 97 ≤ c.toNat ∧ c.toNat ≤ 122 then some (c.toNat - 97 + 26)
  else if 48 ≤ c.toNat ∧ c.toNat ≤ 57 then some (c.toNat - 48 + 52)
  else if c.toNat = 43 then some 62
  else if c.toNat = 47 then some 63
  else none

/-- CPython's `binascii.a2b_base64` with `strict_mode=False`: a state machine
over the input characters tracking the position inside the current quad
(`quad_pos`), the leftover bits of the previous character (`leftchar`) and the
run of pad characters seen at quad positions ≥ 2 (`pads`).  A `=` at quad
position ≥ 2 completing a quad terminates decoding successfully; any other
`=` and any non-alphabet character is skipped; leftover data at the end
(`quad_pos ≠ 0`) is an error. -/
def a2b : List Char → Nat → Nat → Nat → Option (List Nat)
  | [], quad_pos, _, _ => if quad_pos = 0 then some [] else none
  | c :: rest, quad_pos, leftchar, pads =>
    if c = '=' then
      if 2 ≤ quad_pos then
        if 4 ≤ quad_pos + (pads + 1) then some []
        else a2b rest quad_pos leftchar (pads + 1)
      else a2b rest quad_pos leftchar pads
    else
      match b64Table c with
      | none => a2b rest quad_pos leftchar pads
      | some v =>
        match quad_pos with
        | 0 => a2b rest 1 v 0
        | 1 => (((leftchar <<< 2) ||| (v >>> 4)) :: ·) <$> a2b rest 2 (v &&& 0x0f) 0
        | 2 => (((leftchar <<< 4) ||| (v >>> 2)) :: ·) <$> a2b rest 3 (v &&& 0x03) 0
        | _ => (((leftchar <<< 6) ||| v) :: ·) <$> a2b rest 0 0 0

/-- `base64.b64decode` on a `str` argument: the string must be pure ASCII
(`s.encode('ascii')`), then the lenient `a2b_base64` runs from the initial
state. `none` models a raised exception. -/
def b64decode (s : List Char) : Option (List Nat) :=
  if s.all (fun c => decide (c.toNat ≤ 127)) then a2b s 0 0 0 else none

/-! ## decode_share_ids -/

/-- `b64_string.replace('-', '+').replace('_', '/')`: the two sequential
global character replacements. -/
def translateUrlSafe (s : List Char) : List Char :=
  (s.map (fun c => if c = '-' then '+' else c)).map (fun c => if c = '_' then '/' else c)

/-- Padding normalization: if the length is not a multiple of 4, append
`'=' * (4 - len % 4)`. -/
def padBase64 (s : List Char) : List Char :=
  if s.length % 4 ≠ 0 then s ++ List.replicate (4 - s.length % 4) '=' else s

/-- `(a - key) & 0xff` on Python integers: subtraction is exact and the mask
of a negative value is its nonnegative residue modulo 256. -/
def subByte (a key : Nat) : Nat := (((a : Int) - (key : Int)) % 256).toNat

/-- One of the two de-obfuscation loops: for `i = 0, …, n-1` in order, append
`(working[idx i] - key) & 0xff`; out-of-range indexing is a raised
`IndexError`, modelled as `none`. -/
def collectIdx (working : List Nat) (key : Nat) (idx : Nat → Nat) : Nat → Option (List Nat)
  | 0 => some []
  | n + 1 => do
    let front ← collectIdx working key idx n
    let b ← working[idx n]?
    pure (front ++ [subByte b key])

/-- The reordered 51-byte buffer: 25 de-obfuscated even-index bytes, then 25
de-obfuscated odd-index bytes, then a zero sentinel. -/
def mkReordered (working : List Nat) (key : Nat) : Option (List Nat) := do
  let evens ← collectIdx working key (fun i => 2 * i) 25
  let odds ← collectIdx working key (fun i => 2 * i + 1) 25
  pure (evens ++ odds ++ [0])

/-- The 17-iteration chunk loop: at chunk `i`, if `3*i + 2 >= len(reordered)`
break, else read bytes `b1, b2, b3` at `3*i, 3*i+1, 3*i+2` and append
`(b1 << 4) | (b2 >> 4)` then `((b2 & 0x0f) << 8) | b3`. -/
def extract12Go (reordered : List Nat) : Nat → Nat → List Nat
  | 0, _ => []
  | fuel + 1, i =>
    if reordered.length ≤ 3 * i + 2 then []
    else
      ((reordered.getD (3 * i) 0 <<< 4) ||| (reordered.getD (3 * i + 1) 0 >>> 4))
        :: (((reordered.getD (3 * i + 1) 0 &&& 0x0f) <<< 8) ||| reordered.getD (3 * i + 2) 0)
        :: extract12Go reordered fuel (i + 1)

/-- `for i in range(17): …` over the reordered buffer. -/
def extract12 (reordered : List Nat) : List Nat := extract12Go reordered 17 0

/-- The error outcomes of `decode_share_ids`: the caught-and-rethrown Base64
failure, the explicit length check (carrying the actual decoded length, as the
message does), and an uncaught `IndexError` from `pop`/indexing (never
reachable, proved below). -/
inductive DecodeErr where
  | base64Error
  | lengthMismatch (actual : Nat)
  | indexError
deriving DecidableEq

/-- The body of `decode_share_ids` after the length-51 check:
`last = arr.pop()`, build the reordered buffer, run the chunk loop, and
`result.pop()` the final value. -/
def decode_core (arr : List Nat) : Option (List Nat) := do
  let last ← arr.getLast?
  let working := arr.dropLast
  let reordered ← mkReordered working last
  let result := extract12 reordered
  if result = [] then none else some result.dropLast

/-- `decode_share_ids`: normalize the token, Base64-decode it, require 51
bytes, and run the unpacking core. -/
def decode_share_ids (s : List Char) : Except DecodeErr (List Nat) :=
  let s1 := padBase64 (translateUrlSafe s)
  match b64decode s1 with
  | none => .error .base64Error
  | some arr =>
    if arr.length = 51 then
      match decode_core arr with
      | some out => .ok out
      | none => .error .indexError
    else .error (.lengthMismatch arr.length)

/-! ## get_card_id_map -/

/-- A catalog entry: `shareId`/`id` fields, each possibly absent. -/
structure CatalogItem where
  shareId : Option Nat
  id : Option Nat
deriving DecidableEq

/-- One catalog HTTP response: its status code and, for the JSON body, either
`none` (the body does not parse; `resp.json()` raises) or the `success` flag
together with the `data` list. -/
structure CatalogResponse where
  status : Nat
  body : Option (Bool × List CatalogItem)
deriving DecidableEq

/-- The exceptions the catalog loop can raise: `raise_for_status` on a
status ≥ 400, or a body parse failure. -/
inductive FetchErr where
  | clientResponseError
  | jsonError
deriving DecidableEq

/-- Python dict assignment `m[k] = v`: replace in place if the key exists,
else append, preserving insertion order. -/
def insertPair (m : List (Nat × Nat)) (k v : Nat) : List (Nat × Nat) :=
  if m.any (fun p => p.1 = k) then m.map (fun p => if p.1 = k then (k, v) else p)
  else m ++ [(k, v)]

/-- `if 'shareId' in item and 'id' in item: if item['shareId']: id_map[…] = …`. -/
def insertItem (m : List (Nat × Nat)) (item : CatalogItem) : List (Nat × Nat) :=
  match item.shareId, item.id with
  | some sid, some cid => if sid ≠ 0 then insertPair m sid cid else m
  | _, _ => m

/-- Processing of one response inside the loop: on status 200 parse the body
and, only when `success` is truthy, index its items; on any other status call
`resp.raise_for_status()`, which raises only for status ≥ 400. -/
def processResponse (m : List (Nat × Nat)) (r : CatalogResponse) :
    Except FetchErr (List (Nat × Nat)) :=
  if r.status = 200 then
    match r.body with
    | none => .error .jsonError
    | some (success, data) => if success then .ok (data.foldl insertItem m) else .ok m
  else if 400 ≤ r.status then .error .clientResponseError
  else .ok m

/-- The map-building loop of `get_card_id_map` over the gathered responses. -/
def buildIdMap (responses : List CatalogResponse) : Except FetchErr (List (Nat × Nat)) :=
  responses.foldlM processResponse []

/-- The error-free path of one loop iteration: a 200 response contributes its
items only when `success` is truthy; any other response is skipped. -/
def skipFold (m : List (Nat × Nat)) (r : CatalogResponse) : List (Nat × Nat) :=
  if r.status = 200 then
    match r.body with
    | some (success, data) => if success then data.foldl insertItem m else m
    | none => m
  else m

/-- Python truthiness of the global `SHARE_ID_TO_ID_MAP`: `None` and the
empty dict are both falsy. -/
def mapTruthy (cache : Option (List (Nat × Nat))) : Bool :=
  match cache with
  | some m => !m.isEmpty
  | none => false

/-- Outcome of one call to `get_card_id_map`: its return value (or raised
error), the value of the global cache afterwards, and whether the remote
fetch was performed. -/
structure CallResult where
  result : Except FetchErr (List (Nat × Nat))
  newCache : Option (List (Nat × Nat))
  didFetch : Bool

/-- One call to `get_card_id_map`, given the current global cache and the
responses the remote would serve: if the cache is truthy return it at once,
otherwise fetch and rebuild; the global is assigned only on success. -/
def get_card_id_map (cache : Option (List (Nat × Nat))) (responses : List CatalogResponse) :
    CallResult :=
  if mapTruthy cache then ⟨.ok (cache.getD []), cache, false⟩
  else
    match buildIdMap responses with
    | .ok m => ⟨.ok m, some m, true⟩
    | .error e => ⟨.error e, cache, true⟩

/-- A sequence of calls in one process: the cache threads from call to call. -/
def runCalls (cache : Option (List (Nat × Nat))) : List (List CatalogResponse) → List CallResult
  | [] => []
  | env :: rest =>
    let c := get_card_id_map cache env
    c :: runCalls c.newCache rest

/-! ## generate_deck_image: resolution and slot arrangement -/

/-- `id_map.get(sid, 0)` over the decoded share-IDs. -/
def resolveIds (idMap : List (Nat × Nat)) (shareIds : List Nat) : List Nat :=
  shareIds.map (fun sid => ((idMap.find? (fun p => p.1 = sid)).map Prod.snd).getD 0)

/-- `cid and len(str(cid)) >= 4`: the main-slot keep condition. -/
def keepMain (cid : Nat) : Bool := decide (cid ≠ 0 ∧ 4 ≤ (Nat.repr cid).length)

/-- `cid and len(str(cid)) >= 6`: the card-slot keep condition. -/
def keepCard (cid : Nat) : Bool := decide (cid ≠ 0 ∧ 6 ≤ (Nat.repr cid).length)

/-- `not cid or len(str(cid)) < 6`: the card-slot placeholder condition. -/
def dropCard (cid : Nat) : Bool := decide (cid = 0 ∨ (Nat.repr cid).length < 6)

/-- The arrangement computed by `generate_deck_image` before fetching images:
the first three entries classified in place, then the valid card-slot entries
sorted ascending (`sorted` on ints), then one `None` per invalid card-slot
entry. -/
def arrangeCardIds (card_ids : List Nat) : List (Option Nat) :=
  let main_cards := (card_ids.take 3).map (fun cid => if keepMain cid then some cid else none)
  let small_cards_valid := (card_ids.drop 3).filter keepCard
  let small_cards_invalid := (card_ids.drop 3).filter dropCard
  main_cards ++ (List.insertionSort (· ≤ ·) small_cards_valid).map some
    ++ small_cards_invalid.map (fun _ => none)

/-- A character of the URL-safe token alphabet: a standard Base64 alphabet
character, or one of the URL-safe replacements `-`, `_`. -/
def isUrlSafeB64 (c : Char) : Bool := (b64Table c).isSome || c = '-' || c = '_'

/-! ## Lemmas about the decoding core -/

theorem subByte_lt (a key : Nat) : subByte a key < 256 := by
  unfold subByte; omega

theorem getD_lt_of_mem_lt {l : List Nat} (h : ∀ x ∈ l, x < 256) (i : Nat) : l.getD i 0 < 256 := by
  by_cases hi : i < l.length
  · rw [List.getD_eq_getElem l 0 hi]
    exact h _ (List.getElem_mem hi)
  · rw [List.getD_eq_default l 0 (by omega)]
    omega

theorem collectIdx_eq (w : List Nat) (key : Nat) (idx : Nat → Nat) (n : Nat)
    (h : ∀ i, i < n → idx i < w.length) :
    collectIdx w key idx n = some ((List.range n).map fun i => subByte (w.getD (idx i) 0) key) := by
  induction n with
  | zero => rfl
  | succ n ih =>
    have hn : idx n < w.length := h n (Nat.lt_succ_self n)
    rw [collectIdx, ih (fun i hi => h i (Nat.lt_succ_of_lt hi))]
    rw [List.getElem?_eq_getElem hn]
    simp [List.range_succ, List.getD_eq_getElem w 0 hn, List.getElem?_eq_getElem hn]

theorem mkReordered_eq (w : List Nat) (key : Nat) (hw : w.length = 50) :
    mkReordered w key = some (
      ((List.range 25).map fun i => subByte (w.getD (2 * i) 0) key)
      ++ (((List.range 25).map fun i => subByte (w.getD (2 * i + 1) 0) key)
      ++ [0])) := by
  rw [mkReordered,
    collectIdx_eq w key (fun i => 2 * i) 25 (fun i hi => by show 2 * i < w.length; omega),
    collectIdx_eq w key (fun i => 2 * i + 1) 25
      (fun i hi => by show 2 * i + 1 < w.length; omega)]
  simp [List.append_assoc]

theorem rangeMap_getD {α : Type} (n : Nat) (f : Nat → α) (d : α) (i : Nat) (h : i < n) :
    ((List.range n).map f).getD i d = f i := by
  have hl : i < ((List.range n).map f).length := by simpa using h
  rw [List.getD_eq_getElem _ d hl, List.getElem_map, List.getElem_range]

theorem extract12Go_length (l : List Nat) (fuel : Nat) :
    ∀ i, 3 * (i + fuel) ≤ l.length → (extract12Go l fuel i).length = 2 * fuel := by
  induction fuel with
  | zero => intro i _; rfl
  | succ n ih =>
    intro i h
    rw [extract12Go, if_neg (by omega)]
    simp only [List.length_cons, ih (i + 1) (by omega)]
    omega

theorem extract12Go_getD (l : List Nat) (fuel : Nat) :
    ∀ i, 3 * (i + fuel) ≤ l.length → ∀ j, j < fuel →
      (extract12Go l fuel i).getD (2 * j) 0
          = ((l.getD (3 * (i + j)) 0) <<< 4) ||| ((l.getD (3 * (i + j) + 1) 0) >>> 4)
      ∧ (extract12Go l fuel i).getD (2 * j + 1) 0
          = (((l.getD (3 * (i + j) + 1) 0) &&& 0x0f) <<< 8) ||| (l.getD (3 * (i + j) + 2) 0) := by
  induction fuel with
  | zero => intro i _ j hj; omega
  | succ n ih =>
    intro i h j hj
    rw [extract12Go, if_neg (by omega)]
    match j with
    | 0 => simp
    | j' + 1 =>
      have e1 : 2 * (j' + 1) = (2 * j' + 1) + 1 := by omega
      rw [e1]
      simp only [List.getD_cons_succ]
      have := ih (i + 1) (by omega) j' (by omega)
      have e3 : i + 1 + j' = i + (j' + 1) := by omega
      rw [e3] at this
      exact this

theorem extract12Go_mem_lt (l : List Nat) (hl : ∀ i, l.getD i 0 < 256) (fuel : Nat) :
    ∀ i, ∀ x ∈ extract12Go l fuel i, x < 4096 := by
  have h2 : (4096 : Nat) = 2 ^ 12 := by norm_num
  induction fuel with
  | zero => intro i x hx; simp [extract12Go] at hx
  | succ n ih =>
    intro i x hx
    rw [extract12Go] at hx
    by_cases hc : l.length ≤ 3 * i + 2
    · rw [if_pos hc] at hx; simp at hx
    · rw [if_neg hc] at hx
      simp only [List.mem_cons] at hx
      rcases hx with rfl | rfl | hx
      · rw [h2]
        refine Nat.or_lt_two_pow ?_ ?_
        · rw [Nat.shiftLeft_eq]
          have := hl (3 * i); omega
        · rw [Nat.shiftRight_eq_div_pow]
          have := hl (3 * i + 1); omega
      · rw [h2]
        refine Nat.or_lt_two_pow ?_ ?_
        · rw [Nat.shiftLeft_eq]
          have : l.getD (3 * i + 1) 0 &&& 0x0f ≤ 0x0f := Nat.and_le_right
          omega
        · have := hl (3 * i + 2); omega
      · exact ih (i + 1) x hx

theorem collectIdx_mem_lt {w : List Nat} {key : Nat} {idx : Nat → Nat} {n : Nat} {l : List Nat}
    (h : collectIdx w key idx n = some l) : ∀ x ∈ l, x < 256 := by
  induction n generalizing l with
  | zero =>
    simp only [collectIdx, Option.some_inj] at h
    subst h; intro x hx; simp at hx
  | succ n ih =>
    rw [collectIdx] at h
    simp only [Option.bind_eq_bind, Option.bind_eq_some, Option.pure_def, Option.some_inj] at h
    obtain ⟨front, hf, b, hb, rfl⟩ := h
    intro x hx
    rcases List.mem_append.1 hx with hx | hx
    · exact ih hf x hx
    · rcases List.mem_singleton.1 hx with rfl
      exact subByte_lt b key

theorem mkReordered_mem_lt {w : List Nat} {key : Nat} {r : List Nat}
    (h : mkReordered w key = some r) : ∀ x ∈ r, x < 256 := by
  rw [mkReordered] at h
  simp only [Option.bind_eq_bind, Option.bind_eq_some, Option.pure_def, Option.some_inj] at h
  obtain ⟨evens, he, odds, ho, rfl⟩ := h
  intro x hx
  rcases List.mem_append.1 hx with hx | hx
  · rcases List.mem_append.1 hx with hx | hx
    · exact collectIdx_mem_lt he x hx
    · exact collectIdx_mem_lt ho x hx
  · rcases List.mem_singleton.1 hx with rfl; omega

theorem mkReordered_length {w : List Nat} {key : Nat} (hw : w.length = 50) {r : List Nat}
    (h : mkReordered w key = some r) : r.length = 51 := by
  rw [mkReordered_eq w key hw] at h
  rw [← Option.some_inj.1 h]
  simp

theorem getLast?_of_length_51 {arr : List Nat} (h : arr.length = 51) :
    arr.getLast? = some (arr.getLastD 0) := by
  have hne : arr ≠ [] := by intro he; rw [he] at h; simp at h
  obtain ⟨y, hy⟩ := Option.isSome_iff_exists.1 (List.getLast?_isSome.2 hne)
  rw [hy, List.getLastD_eq_getLast?, hy]
  rfl

theorem decode_core_eq (arr : List Nat) (h : arr.length = 51) :
    ∃ r, mkReordered arr.dropLast (arr.getLastD 0) = some r ∧ r.length = 51
      ∧ decode_core arr = some ((extract12 r).dropLast) := by
  have hw : arr.dropLast.length = 50 := by rw [List.length_dropLast, h]
  obtain ⟨r, hr⟩ : ∃ r, mkReordered arr.dropLast (arr.getLastD 0) = some r :=
    ⟨_, mkReordered_eq _ _ hw⟩
  have hrlen : r.length = 51 := mkReordered_length hw hr
  have hext : (extract12 r).length = 34 := by
    rw [extract12]
    rw [extract12Go_length r 17 0 (by omega)]
  refine ⟨r, hr, hrlen, ?_⟩
  rw [decode_core, getLast?_of_length_51 h]
  simp only [Option.bind_eq_bind, Option.some_bind, hr]
  rw [if_neg (by intro he; rw [he] at hext; simp at hext)]

/-- C1: for every input string whose normalized Base64 form decodes to exactly
51 raw bytes, `decode_share_ids` succeeds and returns an ordered sequence of
exactly 33 integers, each in the range [0, 4095]. -/
theorem decode_share_ids_ok (s : List Char) (arr : List Nat)
    (hdec : b64decode (padBase64 (translateUrlSafe s)) = some arr) (hlen : arr.length = 51) :
    ∃ out, decode_share_ids s = .ok out ∧ out.length = 33 ∧ ∀ x ∈ out, x ≤ 4095 := by
  obtain ⟨r, hr, hrlen, hcore⟩ := decode_core_eq arr hlen
  have hext : (extract12 r).length = 34 := by
    rw [extract12, extract12Go_length r 17 0 (by omega)]
  refine ⟨(extract12 r).dropLast, ?_, ?_, ?_⟩
  · rw [decode_share_ids]
    simp only [hdec, if_pos hlen, hcore]
  · rw [List.length_dropLast, hext]
  · intro x hx
    have hx' : x ∈ extract12 r := List.dropLast_subset _ hx
    have hb : ∀ i, r.getD i 0 < 256 := getD_lt_of_mem_lt (mkReordered_mem_lt hr)
    have := extract12Go_mem_lt r hb 17 0 x hx'
    omega

/-- C1 witness: the all-`A` 68-character token decodes to 51 zero bytes and
yields 33 in-range share-IDs. -/
theorem decode_share_ids_ok_witness :
    b64decode (padBase64 (translateUrlSafe (List.replicate 68 'A'))) = some (List.replicate 51 0)
    ∧ (List.replicate 51 (0 : Nat)).length = 51
    ∧ ∃ out, decode_share_ids (List.replicate 68 'A') = .ok out ∧ out.length = 33
        ∧ ∀ x ∈ out, x ≤ 4095 :=
  ⟨by decide, by decide,
    decode_share_ids_ok (List.replicate 68 'A') (List.replicate 51 0) (by decide) (by decide)⟩

/-- C2: with the last raw byte removed as the key, the reordered buffer
satisfies `reordered[i] = (working[2*i] - key) mod 256` and
`reordered[25+i] = (working[2*i+1] - key) mod 256` for `i` in 0..24, and
`reordered[50] = 0`. -/
theorem decode_reordered_buffer (arr : List Nat) (h : arr.length = 51) :
    ∃ r, mkReordered arr.dropLast (arr.getLastD 0) = some r ∧ r.length = 51
      ∧ (∀ i, i < 25 →
          r.getD i 0
            = (((arr.dropLast.getD (2 * i) 0 : Int) - (arr.getLastD 0 : Int)) % 256).toNat
        ∧ r.getD (25 + i) 0
            = (((arr.dropLast.getD (2 * i + 1) 0 : Int) - (arr.getLastD 0 : Int)) % 256).toNat)
      ∧ r.getD 50 0 = 0 := by
  have hw : arr.dropLast.length = 50 := by rw [List.length_dropLast, h]
  set w := arr.dropLast with hwdef
  set key := arr.getLastD 0 with hkdef
  have hr := mkReordered_eq w key hw
  set evens := (List.range 25).map fun i => subByte (w.getD (2 * i) 0) key with he
  set odds := (List.range 25).map fun i => subByte (w.getD (2 * i + 1) 0) key with ho
  have hel : evens.length = 25 := by simp [he]
  have hol : odds.length = 25 := by simp [ho]
  refine ⟨evens ++ (odds ++ [0]), hr, by simp [hel, hol], ?_, ?_⟩
  · intro i hi
    constructor
    · rw [List.getD_append _ _ _ _ (by omega), he, rangeMap_getD 25 _ 0 i hi]
      rfl
    · rw [List.getD_append_right _ _ _ _ (by omega)]
      rw [hel, show 25 + i - 25 = i from by omega]
      rw [List.getD_append _ _ _ _ (by omega), ho, rangeMap_getD 25 _ 0 i hi]
      rfl
  · rw [List.getD_append_right _ _ _ _ (by omega)]
    rw [List.getD_append_right _ _ _ _ (by omega)]
    rw [hel, hol]
    rfl

/-- C2 witness: instantiated at the byte buffer `0, 1, …, 50`. -/
theorem decode_reordered_buffer_witness :
    (List.range 51).length = 51
    ∧ ∃ r, mkReordered (List.range 51).dropLast ((List.range 51).getLastD 0) = some r
      ∧ r.length = 51
      ∧ (∀ i, i < 25 →
          r.getD i 0 = ((((List.range 51).dropLast.getD (2 * i) 0 : Int)
              - ((List.range 51).getLastD 0 : Int)) % 256).toNat
        ∧ r.getD (25 + i) 0 = ((((List.range 51).dropLast.getD (2 * i + 1) 0 : Int)
              - ((List.range 51).getLastD 0 : Int)) % 256).toNat)
      ∧ r.getD 50 0 = 0 :=
  ⟨by decide, decode_reordered_buffer (List.range 51) (by decide)⟩

/-- C3: the 51-byte reordered buffer is read as 17 consecutive 3-byte chunks;
chunk `(b1, b2, b3)` contributes `n1 = (b1 << 4) | (b2 >> 4)` and then
`n2 = ((b2 & 0x0F) << 8) | b3`, for 34 values in all, and the decode core
returns exactly the first 33 of them in that order. -/
theorem decode_chunk_unpacking (arr : List Nat) (h : arr.length = 51) :
    ∃ r, mkReordered arr.dropLast (arr.getLastD 0) = some r
      ∧ (extract12 r).length = 34
      ∧ (∀ i, i < 17 →
          (extract12 r).getD (2 * i) 0
            = ((r.getD (3 * i) 0) <<< 4) ||| ((r.getD (3 * i + 1) 0) >>> 4)
        ∧ (extract12 r).getD (2 * i + 1) 0
            = (((r.getD (3 * i + 1) 0) &&& 0x0f) <<< 8) ||| (r.getD (3 * i + 2) 0))
      ∧ decode_core arr = some ((extract12 r).take 33) := by
  obtain ⟨r, hr, hrlen, hcore⟩ := decode_core_eq arr h
  have hext : (extract12 r).length = 34 := by
    rw [extract12, extract12Go_length r 17 0 (by omega)]
  refine ⟨r, hr, hext, ?_, ?_⟩
  · intro i hi
    have := extract12Go_getD r 17 0 (by omega) i hi
    simpa [extract12] using this
  · rw [hcore, List.dropLast_eq_take, hext]

/-- C3 witness: instantiated at the all-ones 51-byte buffer. -/
theorem decode_chunk_unpacking_witness :
    (List.replicate 51 (1 : Nat)).length = 51
    ∧ ∃ r, mkReordered (List.replicate 51 (1 : Nat)).dropLast
          ((List.replicate 51 (1 : Nat)).getLastD 0) = some r
      ∧ (extract12 r).length = 34
      ∧ (∀ i, i < 17 →
          (extract12 r).getD (2 * i) 0
            = ((r.getD (3 * i) 0) <<< 4) ||| ((r.getD (3 * i + 1) 0) >>> 4)
        ∧ (extract12 r).getD (2 * i + 1) 0
            = (((r.getD (3 * i + 1) 0) &&& 0x0f) <<< 8) ||| (r.getD (3 * i + 2) 0))
      ∧ decode_core (List.replicate 51 (1 : Nat)) = some ((extract12 r).take 33) :=
  ⟨by decide, decode_chunk_unpacking (List.replicate 51 1) (by decide)⟩

/-- C4: the decode step is total over 51-byte buffers — for every 51-byte
decoded buffer the core succeeds — and the only failure outcomes of
`decode_share_ids` are the Base64 decode error and the length-51 check. -/
theorem decode_share_ids_total :
    (∀ arr : List Nat, arr.length = 51 → ∃ out, decode_core arr = some out)
    ∧ ∀ s : List Char,
        (∃ out, decode_share_ids s = .ok out)
        ∨ decode_share_ids s = .error .base64Error
        ∨ ∃ n, n ≠ 51 ∧ decode_share_ids s = .error (.lengthMismatch n) := by
  have hcore : ∀ arr : List Nat, arr.length = 51 → ∃ out, decode_core arr = some out := by
    intro arr h
    obtain ⟨r, _, _, hc⟩ := decode_core_eq arr h
    exact ⟨_, hc⟩
  refine ⟨hcore, ?_⟩
  intro s
  rw [decode_share_ids]
  cases hb : b64decode (padBase64 (translateUrlSafe s)) with
  | none => exact Or.inr (Or.inl rfl)
  | some arr =>
    by_cases harr : arr.length = 51
    · obtain ⟨out, hout⟩ := hcore arr harr
      exact Or.inl ⟨out, by simp only [if_pos harr, hout]⟩
    · exact Or.inr (Or.inr ⟨arr.length, harr, by simp only [if_neg harr]⟩)

/-- C4 witness: the core succeeds on a concrete 51-byte buffer, and the
outcome disjunction holds on a concrete token. -/
theorem decode_share_ids_total_witness :
    (List.replicate 51 (2 : Nat)).length = 51
    ∧ (∃ out, decode_core (List.replicate 51 (2 : Nat)) = some out)
    ∧ ((∃ out, decode_share_ids "deck".toList = .ok out)
        ∨ decode_share_ids "deck".toList = .error .base64Error
        ∨ ∃ n, n ≠ 51 ∧ decode_share_ids "deck".toList = .error (.lengthMismatch n)) :=
  ⟨by decide, decode_share_ids_total.1 (List.replicate 51 2) (by decide),
    decode_share_ids_total.2 "deck".toList⟩

/-- C5: every input whose normalized form Base64-decodes to a byte sequence
of length other than 51 fails with a length-mismatch error carrying the
actual decoded length. -/
theorem decode_share_ids_wrong_length (s : List Char) (arr : List Nat)
    (hdec : b64decode (padBase64 (translateUrlSafe s)) = some arr) (hne : arr.length ≠ 51) :
    decode_share_ids s = .error (.lengthMismatch arr.length) := by
  rw [decode_share_ids]
  simp only [hdec, if_neg hne]

/-- C5 witness: `"AAAA"` decodes to 3 bytes and fails reporting length 3. -/
theorem decode_share_ids_wrong_length_witness :
    b64decode (padBase64 (translateUrlSafe "AAAA".toList)) = some [0, 0, 0]
    ∧ ([0, 0, 0] : List Nat).length ≠ 51
    ∧ decode_share_ids "AAAA".toList = .error (.lengthMismatch ([0, 0, 0] : List Nat).length) :=
  ⟨by decide, by decide,
    decode_share_ids_wrong_length "AAAA".toList [0, 0, 0] (by decide) (by decide)⟩

/-! ## Lemmas about Base64 normalization and the length-mod-4 boundary -/

theorem b64Table_ascii {c : Char} (h : (b64Table c).isSome) : c.toNat ≤ 127 := by
  unfold b64Table at h
  by_cases h1 : 65 ≤ c.toNat ∧ c.toNat ≤ 90
  · omega
  rw [if_neg h1] at h
  by_cases h2 : 97 ≤ c.toNat ∧ c.toNat ≤ 122
  · omega
  rw [if_neg h2] at h
  by_cases h3 : 48 ≤ c.toNat ∧ c.toNat ≤ 57
  · omega
  rw [if_neg h3] at h
  by_cases h4 : c.toNat = 43
  · omega
  rw [if_neg h4] at h
  by_cases h5 : c.toNat = 47
  · omega
  rw [if_neg h5] at h
  simp at h

theorem a2b_pads_q1 (left pads : Nat) (k : Nat) :
    a2b (List.replicate k '=') 1 left pads = none := by
  induction k with
  | zero => simp [a2b]
  | succ k ih => simpa [List.replicate_succ, a2b] using ih

theorem a2b_alpha_none :
    ∀ (l : List Char) (q left pads : Nat), (∀ c ∈ l, (b64Table c).isSome)
      → q < 4 → (q + l.length) % 4 = 1 →
    a2b (l ++ List.replicate 3 '=') q left pads = none := by
  intro l
  induction l with
  | nil =>
    intro q left pads _ hq hmod
    have hq1 : q = 1 := by simp at hmod; omega
    subst hq1
    simpa using a2b_pads_q1 left pads 3
  | cons c l' ih =>
    intro q left pads h hq hmod
    have hcs : (b64Table c).isSome := h c (List.mem_cons_self c l')
    obtain ⟨v, hv⟩ := Option.isSome_iff_exists.1 hcs
    have hc : ¬ c = '=' := by
      intro he
      subst he
      rw [show b64Table '=' = none from by decide] at hv
      exact Option.noConfusion hv
    have h' : ∀ c' ∈ l', (b64Table c').isSome := fun c' hc' => h c' (List.mem_cons_of_mem _ hc')
    simp only [List.length_cons] at hmod
    interval_cases q
    · simp only [List.cons_append, a2b, if_neg hc, hv, List.append_eq]
      exact ih 1 v 0 h' (by omega) (by omega)
    · simp only [List.cons_append, a2b, if_neg hc, hv, List.append_eq]
      rw [ih 2 (v &&& 0x0f) 0 h' (by omega) (by omega)]
      rfl
    · simp only [List.cons_append, a2b, if_neg hc, hv, List.append_eq]
      rw [ih 3 (v &&& 0x03) 0 h' (by omega) (by omega)]
      rfl
    · simp only [List.cons_append, a2b, if_neg hc, hv, List.append_eq]
      rw [ih 0 0 0 h' (by omega) (by omega)]
      rfl

theorem translateUrlSafe_eq (s : List Char) :
    translateUrlSafe s = s.map (fun c => if c = '-' then '+' else if c = '_' then '/' else c) := by
  rw [translateUrlSafe, List.map_map]
  congr 1
  funext c
  by_cases h1 : c = '-'
  · subst h1; rfl
  · by_cases h2 : c = '_' <;> simp [Function.comp, h1, h2]

theorem translateUrlSafe_length (s : List Char) : (translateUrlSafe s).length = s.length := by
  simp [translateUrlSafe]

theorem translateUrlSafe_alpha {s : List Char} (h : ∀ c ∈ s, isUrlSafeB64 c = true) :
    ∀ c ∈ translateUrlSafe s, (b64Table c).isSome := by
  intro c hc
  rw [translateUrlSafe_eq] at hc
  obtain ⟨c0, hc0, rfl⟩ := List.mem_map.1 hc
  have h0 := h c0 hc0
  rw [isUrlSafeB64] at h0
  by_cases h1 : c0 = '-'
  · subst h1; decide
  · by_cases h2 : c0 = '_'
    · subst h2; decide
    · simp only [h1, h2, decide_False, Bool.or_false] at h0
      simpa [h1, h2] using h0

theorem padBase64_mod1 {s : List Char} (h : s.length % 4 = 1) :
    padBase64 s = s ++ List.replicate 3 '=' := by
  rw [padBase64, if_pos (by omega), h]

/-- C6 (amended): `decode_share_ids` first maps `-` to `+` and `_` to `/`,
then pads with `=` to a multiple of 4; and every input drawn from the
URL-safe/standard alphabet whose length is 1 mod 4 fails with the Base64
decode error. -/
theorem decode_share_ids_normalization :
    (∀ s : List Char,
        translateUrlSafe s
            = s.map (fun c => if c = '-' then '+' else if c = '_' then '/' else c)
        ∧ (∃ k, k < 4 ∧ padBase64 (translateUrlSafe s) = translateUrlSafe s ++ List.replicate k '=')
        ∧ (padBase64 (translateUrlSafe s)).length % 4 = 0)
    ∧ ∀ s : List Char, (∀ c ∈ s, isUrlSafeB64 c = true) → s.length % 4 = 1 →
        decode_share_ids s = .error .base64Error := by
  constructor
  · intro s
    refine ⟨translateUrlSafe_eq s, ?_, ?_⟩
    · by_cases h : (translateUrlSafe s).length % 4 = 0
      · exact ⟨0, by omega, by simp [padBase64, h]⟩
      · exact ⟨4 - (translateUrlSafe s).length % 4, by omega, by rw [padBase64, if_pos h]⟩
    · rw [padBase64]
      by_cases h : (translateUrlSafe s).length % 4 = 0
      · rw [if_neg (by omega)]
        exact h
      · rw [if_pos h]
        simp only [List.length_append, List.length_replicate]
        omega
  · intro s halpha hlen
    have hlent : (translateUrlSafe s).length % 4 = 1 := by rw [translateUrlSafe_length]; exact hlen
    have hpad := padBase64_mod1 hlent
    have halphat := translateUrlSafe_alpha halpha
    have hascii : (padBase64 (translateUrlSafe s)).all (fun c => decide (c.toNat ≤ 127)) = true := by
      rw [hpad, List.all_append, Bool.and_eq_true]
      constructor
      · rw [List.all_eq_true]
        intro c hc
        exact decide_eq_true (b64Table_ascii (halphat c hc))
      · decide
    have hnone : b64decode (padBase64 (translateUrlSafe s)) = none := by
      rw [b64decode, if_pos hascii, hpad]
      exact a2b_alpha_none (translateUrlSafe s) 0 0 0 halphat (by omega) (by omega)
    rw [decode_share_ids]
    simp only [hnone]

/-- C6 witness: `"AAAAA"` (length 5 ≡ 1 mod 4, all alphabet characters)
fails with the Base64 decode error. -/
theorem decode_share_ids_normalization_witness :
    (∀ c ∈ "AAAAA".toList, isUrlSafeB64 c = true)
    ∧ "AAAAA".toList.length % 4 = 1
    ∧ decode_share_ids "AAAAA".toList = .error .base64Error :=
  ⟨by decide, by decide,
    decode_share_ids_normalization.2 "AAAAA".toList (by decide) (by decide)⟩

/-- C6 counterexample: `"AB==X"` has length 5 ≡ 1 mod 4, yet
`decode_share_ids` does not fail with a Base64 decode error — the lenient
decoder stops at the completed pad sequence, returns one byte, and the
length-51 check reports a length mismatch instead. -/
theorem decode_share_ids_mod4_cex :
    "AB==X".toList.length % 4 = 1
    ∧ decode_share_ids "AB==X".toList = .error (.lengthMismatch 1)
    ∧ decode_share_ids "AB==X".toList ≠ .error .base64Error := by
  have h2 : decode_share_ids "AB==X".toList = .error (.lengthMismatch 1) := rfl
  refine ⟨by decide, h2, ?_⟩
  rw [h2]
  simp

/-! ## Lemmas about the catalog map and its cache -/

theorem processResponse_ok {m : List (Nat × Nat)} {r : CatalogResponse}
    (h1 : r.status < 400) (h2 : r.status = 200 → r.body ≠ none) :
    processResponse m r = .ok (skipFold m r) := by
  rw [processResponse, skipFold]
  by_cases hs : r.status = 200
  · rw [if_pos hs, if_pos hs]
    cases hb : r.body with
    | none => exact absurd hb (h2 hs)
    | some b =>
      obtain ⟨success, data⟩ := b
      by_cases hsucc : success <;> simp [hsucc]
  · rw [if_neg hs, if_neg hs, if_neg (by omega)]

theorem foldlM_processResponse_err (rs : List CatalogResponse) :
    ∀ m, (∃ r ∈ rs, 400 ≤ r.status ∨ (r.status = 200 ∧ r.body = none)) →
      ∃ e, rs.foldlM processResponse m = .error e := by
  induction rs with
  | nil => intro m h; simp at h
  | cons r rs' ih =>
    intro m h
    rw [List.foldlM_cons]
    rcases h with ⟨rbad, hmem, hbad⟩
    rcases List.mem_cons.1 hmem with rfl | hmem'
    · rcases hbad with hbad | ⟨hs, hb⟩
      · refine ⟨.clientResponseError, ?_⟩
        rw [processResponse, if_neg (by omega), if_pos hbad]
        rfl
      · refine ⟨.jsonError, ?_⟩
        rw [processResponse, if_pos hs, hb]
        rfl
    · cases hp : processResponse m r with
      | error e => exact ⟨e, rfl⟩
      | ok m' =>
        obtain ⟨e, he⟩ := ih m' ⟨rbad, hmem', hbad⟩
        exact ⟨e, by simpa using he⟩

theorem foldlM_processResponse_ok (rs : List CatalogResponse) :
    ∀ m, (∀ r ∈ rs, r.status < 400 ∧ (r.status = 200 → r.body ≠ none)) →
      rs.foldlM processResponse m = .ok (rs.foldl skipFold m) := by
  induction rs with
  | nil => intro m _; rfl
  | cons r rs' ih =>
    intro m h
    obtain ⟨h1, h2⟩ := h r (List.mem_cons_self r rs')
    rw [List.foldlM_cons, processResponse_ok h1 h2]
    rw [List.foldl_cons]
    simpa using ih (skipFold m r) (fun r' hr' => h r' (List.mem_cons_of_mem _ hr'))

/-- C7 (amended): an HTTP failure status (≥ 400) or an unparsable body of a
200 response anywhere among the catalog responses makes the whole map build
raise; but a response that merely does not indicate success (a 200 body with
a falsy `success` flag, or a non-200 status below 400) is silently skipped,
and the map built from the remaining responses is returned. -/
theorem get_card_id_map_failure_propagation :
    (∀ responses : List CatalogResponse,
        (∃ r ∈ responses, 400 ≤ r.status ∨ (r.status = 200 ∧ r.body = none)) →
        ∃ e, buildIdMap responses = .error e)
    ∧ ∀ responses : List CatalogResponse,
        (∀ r ∈ responses, r.status < 400 ∧ (r.status = 200 → r.body ≠ none)) →
        buildIdMap responses = .ok (responses.foldl skipFold []) :=
  ⟨fun responses h => foldlM_processResponse_err responses [] h,
   fun responses h => foldlM_processResponse_ok responses [] h⟩

/-- C7 witness: a 500 response raises; a 204 response is skipped and the
build still succeeds. -/
theorem get_card_id_map_failure_propagation_witness :
    (∃ e, buildIdMap [⟨500, none⟩] = .error e)
    ∧ buildIdMap [⟨204, none⟩]
        = .ok (([⟨204, none⟩] : List CatalogResponse).foldl skipFold []) :=
  ⟨get_card_id_map_failure_propagation.1 [⟨500, none⟩]
      ⟨⟨500, none⟩, List.mem_singleton_self _, Or.inl (by decide)⟩,
   get_card_id_map_failure_propagation.2 [⟨204, none⟩]
      (fun r hr => by
        rcases List.mem_singleton.1 hr with rfl
        exact ⟨by decide, fun hs => absurd hs (by decide)⟩)⟩

/-- C7 counterexample: with a first catalog response carrying one entry and a
second 200 response whose body has a falsy `success` flag, the build returns
the partial map from the first response instead of propagating a fatal
error. -/
theorem get_card_id_map_nonsuccess_cex :
    buildIdMap
        [⟨200, some (true, [⟨some 1, some 1001⟩])⟩, ⟨200, some (false, [⟨some 2, some 2002⟩])⟩]
      = .ok [(1, 1001)] := rfl

/-- C8 (amended): a call finding a non-empty cached map returns it without
fetching; a first call whose build succeeds stores the built map; and once
the cache holds a non-empty map, every later call in the process returns it
without fetching. The cache test is Python truthiness, so an empty built map
does not count as populated. -/
theorem get_card_id_map_fetch_once :
    (∀ (m : List (Nat × Nat)) (env : List CatalogResponse), m ≠ [] →
        get_card_id_map (some m) env = ⟨.ok m, some m, false⟩)
    ∧ (∀ (env : List CatalogResponse) (m : List (Nat × Nat)), buildIdMap env = .ok m →
        get_card_id_map none env = ⟨.ok m, some m, true⟩)
    ∧ ∀ (m : List (Nat × Nat)), m ≠ [] → ∀ (envs : List (List CatalogResponse)),
        ∀ c ∈ runCalls (some m) envs, c = ⟨.ok m, some m, false⟩ := by
  have h1 : ∀ (m : List (Nat × Nat)) (env : List CatalogResponse), m ≠ [] →
      get_card_id_map (some m) env = ⟨.ok m, some m, false⟩ := by
    intro m env hm
    rw [get_card_id_map, mapTruthy]
    rw [if_pos (by simpa [List.isEmpty_iff] using hm)]
    rfl
  refine ⟨h1, ?_, ?_⟩
  · intro env m hbuild
    rw [get_card_id_map, mapTruthy, if_neg (by simp), hbuild]
  · intro m hm envs
    induction envs with
    | nil => intro c hc; simp [runCalls] at hc
    | cons env rest ih =>
      intro c hc
      rw [runCalls] at hc
      simp only [h1 m env hm] at hc
      rcases List.mem_cons.1 hc with rfl | hc'
      · rfl
      · exact ih c hc'

/-- C8 witness: a populated non-empty cache short-circuits every later call;
a successful first build populates the cache. -/
theorem get_card_id_map_fetch_once_witness :
    ([(1, 1001)] : List (Nat × Nat)) ≠ []
    ∧ get_card_id_map (some [(1, 1001)]) [] = ⟨.ok [(1, 1001)], some [(1, 1001)], false⟩
    ∧ buildIdMap [⟨200, some (true, [⟨some 3, some 303303⟩])⟩] = .ok [(3, 303303)]
    ∧ get_card_id_map none [⟨200, some (true, [⟨some 3, some 303303⟩])⟩]
        = ⟨.ok [(3, 303303)], some [(3, 303303)], true⟩
    ∧ ∀ c ∈ runCalls (some [(1, 1001)]) [[⟨500, none⟩]],
        c = ⟨.ok [(1, 1001)], some [(1, 1001)], false⟩ :=
  ⟨by decide,
   get_card_id_map_fetch_once.1 [(1, 1001)] [] (by decide),
   rfl,
   get_card_id_map_fetch_once.2.1 [⟨200, some (true, [⟨some 3, some 303303⟩])⟩] [(3, 303303)] rfl,
   get_card_id_map_fetch_once.2.2 [(1, 1001)] (by decide) [[⟨500, none⟩]]⟩

/-- C8 counterexample: when the catalog yields an empty map, the first call
completes and assigns the cache, yet the second call performs the remote
fetch again — the truthiness test treats the empty map as unpopulated. -/
theorem get_card_id_map_refetch_cex :
    runCalls none [[⟨200, some (true, [])⟩], [⟨200, some (true, [])⟩]]
      = [⟨.ok [], some [], true⟩, ⟨.ok [], some [], true⟩] := rfl

/-! ## Lemmas about the slot arrangement -/

theorem dropCard_eq_not_keepCard (c : Nat) : dropCard c = !keepCard c := by
  by_cases h1 : c = 0
  all_goals by_cases h2 : 6 ≤ (Nat.repr c).length
  all_goals simp [dropCard, keepCard, h1, h2]
  all_goals omega

theorem arrange_main_length {ids : List Nat} (h : ids.length = 33) :
    ((ids.take 3).map (fun cid => if keepMain cid then some cid else none)).length = 3 := by
  simp [List.length_take, h]

/-- C9: the 33-entry identifier list handed to image fetching is the 3
main-slot entries in their original order, followed by the valid card-slot
identifiers sorted ascending, followed by one trailing placeholder per
invalid card-slot entry. -/
theorem generate_deck_image_order (idMap : List (Nat × Nat)) (share_ids : List Nat)
    (h : share_ids.length = 33) :
    ∃ (v : List Nat) (k : Nat), arrangeCardIds (resolveIds idMap share_ids)
        = ((resolveIds idMap share_ids).take 3).map
            (fun cid => if keepMain cid then some cid else none)
          ++ v.map some ++ List.replicate k none
      ∧ v.Sorted (· ≤ ·)
      ∧ v.Perm (((resolveIds idMap share_ids).drop 3).filter keepCard)
      ∧ v.length + k = 30
      ∧ (arrangeCardIds (resolveIds idMap share_ids)).length = 33 := by
  set ids := resolveIds idMap share_ids with hids
  have hl : ids.length = 33 := by rw [hids, resolveIds, List.length_map, h]
  refine ⟨List.insertionSort (· ≤ ·) ((ids.drop 3).filter keepCard),
      ((ids.drop 3).filter dropCard).length, ?_, ?_, ?_, ?_, ?_⟩
  · rw [arrangeCardIds, List.map_const']
  · exact List.sorted_insertionSort _ _
  · exact List.perm_insertionSort _ _
  · rw [List.length_insertionSort]
    have hsplit := (ids.drop 3).length_eq_length_filter_add keepCard
    have hdc : (ids.drop 3).filter dropCard = (ids.drop 3).filter (fun x => !keepCard x) := by
      congr 1
      funext c
      exact dropCard_eq_not_keepCard c
    rw [hdc]
    rw [List.length_drop, hl] at hsplit
    omega
  · rw [arrangeCardIds, List.map_const']
    simp only [List.length_append, List.length_map, List.length_insertionSort,
      List.length_replicate, List.length_take, hl]
    have hsplit := (ids.drop 3).length_eq_length_filter_add keepCard
    have hdc : (ids.drop 3).filter dropCard = (ids.drop 3).filter (fun x => !keepCard x) := by
      congr 1
      funext c
      exact dropCard_eq_not_keepCard c
    rw [hdc]
    rw [List.length_drop, hl] at hsplit
    omega

/-- C9 witness: instantiated at an empty catalog map and the share-IDs
0..32, every slot resolves to 0 and every entry becomes a placeholder. -/
theorem generate_deck_image_order_witness :
    (List.range 33).length = 33
    ∧ ∃ (v : List Nat) (k : Nat), arrangeCardIds (resolveIds [] (List.range 33))
        = ((resolveIds [] (List.range 33)).take 3).map
            (fun cid => if keepMain cid then some cid else none)
          ++ v.map some ++ List.replicate k none
      ∧ v.Sorted (· ≤ ·)
      ∧ v.Perm (((resolveIds [] (List.range 33)).drop 3).filter keepCard)
      ∧ v.length + k = 30
      ∧ (arrangeCardIds (resolveIds [] (List.range 33))).length = 33 :=
  ⟨by decide, generate_deck_image_order [] (List.range 33) (by decide)⟩

/-- C10: a resolved identifier is kept in a main slot only when truthy with a
decimal representation of at least 4 characters; an entry appearing as a
non-placeholder card-slot value is truthy with at least 6 characters and
comes from the card-slot region; every other card-slot entry is the
placeholder `none`. -/
theorem generate_deck_image_classification (ids : List Nat) (h : ids.length = 33) :
    (∀ i, i < 3 → (arrangeCardIds ids).getD i none
        = if ids.getD i 0 ≠ 0 ∧ 4 ≤ (Nat.repr (ids.getD i 0)).length then some (ids.getD i 0)
          else none)
    ∧ (∀ c : Nat, some c ∈ (arrangeCardIds ids).drop 3 →
        c ≠ 0 ∧ 6 ≤ (Nat.repr c).length ∧ c ∈ ids.drop 3)
    ∧ ((arrangeCardIds ids).drop 3).count none = ((ids.drop 3).filter dropCard).length := by
  have hmain := arrange_main_length h
  have hdrop : (arrangeCardIds ids).drop 3
      = (List.insertionSort (· ≤ ·) ((ids.drop 3).filter keepCard)).map some
        ++ ((ids.drop 3).filter dropCard).map (fun _ => none) := by
    rw [arrangeCardIds, List.append_assoc]
    exact List.drop_left' hmain
  refine ⟨?_, ?_, ?_⟩
  · intro i hi
    have hi33 : i < ids.length := by omega
    have hi3 : i < (ids.take 3).length := by simp [List.length_take, h]; omega
    have him : i < ((ids.take 3).map
        (fun cid => if keepMain cid then some cid else none)).length := by
      simpa using hi3
    rw [arrangeCardIds, List.append_assoc,
      List.getD_append _ _ _ _ (by rw [hmain]; omega),
      List.getD_eq_getElem _ _ him, List.getElem_map, List.getElem_take,
      List.getD_eq_getElem _ _ hi33]
    by_cases hP : ids[i] ≠ 0 ∧ 4 ≤ (Nat.repr ids[i]).length
    · rw [if_pos (by rw [keepMain]; exact decide_eq_true hP), if_pos hP]
    · rw [if_neg (by rw [keepMain]; simpa using hP), if_neg hP]
  · intro c hc
    rw [hdrop] at hc
    rcases List.mem_append.1 hc with hc | hc
    · obtain ⟨a, ha, heq⟩ := List.mem_map.1 hc
      obtain rfl : a = c := Option.some_inj.1 heq
      have hmem := (List.perm_insertionSort (· ≤ ·) _).mem_iff.1 ha
      obtain ⟨hin, hkeep⟩ := List.mem_filter.1 hmem
      rw [keepCard, decide_eq_true_eq] at hkeep
      exact ⟨hkeep.1, hkeep.2, hin⟩
    · obtain ⟨a, _, heq⟩ := List.mem_map.1 hc
      exact Option.noConfusion heq
  · rw [hdrop, List.count_append, List.map_const', List.count_replicate_self]
    have : (none : Option Nat) ∉ (List.insertionSort (· ≤ ·)
        ((ids.drop 3).filter keepCard)).map some := by
      intro hmem
      obtain ⟨a, _, heq⟩ := List.mem_map.1 hmem
      exact Option.noConfusion heq
    rw [List.count_eq_zero.2 this]
    omega

/-- C10 witness: instantiated at a concrete 33-entry identifier list with
short, long and zero identifiers. -/
theorem generate_deck_image_classification_witness :
    ([1101, 330001, 99] ++ [212011, 0, 112041, 112041, 999] ++ List.replicate 25 331201).length = 33
    ∧ ((∀ i, i < 3 →
        (arrangeCardIds ([1101, 330001, 99] ++ [212011, 0, 112041, 112041, 999]
            ++ List.replicate 25 331201)).getD i none
          = if ([1101, 330001, 99] ++ [212011, 0, 112041, 112041, 999]
                ++ List.replicate 25 331201).getD i 0 ≠ 0
              ∧ 4 ≤ (Nat.repr (([1101, 330001, 99] ++ [212011, 0, 112041, 112041, 999]
                ++ List.replicate 25 331201).getD i 0)).length
            then some (([1101, 330001, 99] ++ [212011, 0, 112041, 112041, 999]
                ++ List.replicate 25 331201).getD i 0)
            else none)
      ∧ (∀ c : Nat, some c ∈ (arrangeCardIds ([1101, 330001, 99]
            ++ [212011, 0, 112041, 112041, 999] ++ List.replicate 25 331201)).drop 3 →
          c ≠ 0 ∧ 6 ≤ (Nat.repr c).length
            ∧ c ∈ ([1101, 330001, 99] ++ [212011, 0, 112041, 112041, 999]
                ++ List.replicate 25 331201).drop 3)
      ∧ ((arrangeCardIds ([1101, 330001, 99] ++ [212011, 0, 112041, 112041, 999]
            ++ List.replicate 25 331201)).drop 3).count none
          = ((([1101, 330001, 99] ++ [212011, 0, 112041, 112041, 999]
            ++ List.replicate 25 331201).drop 3).filter dropCard).length) :=
  ⟨by decide,
   generate_deck_image_classification
     ([1101, 330001, 99] ++ [212011, 0, 112041, 112041, 999] ++ List.replicate 25 331201)
     (by decide)⟩

end GitcgDeck
